import Mathlib

/-!
# ArduCam: the Visual Micro stub header `.ArduCam.vsarduino.h`

The header consists of a block of `#define` lines, one `typedef`, one function
definition with an empty body, ten function prototypes and three `#include`
lines.  This development embeds

* the declarations of the header as a list of `Decl` values (in source order),
* the `#define` lines as a list of `Macro` values (in source order) together
  with a model of macro expansion (rescanning with hide sets),
* the empty function body with a small statement semantics.

The header holds no arithmetic: of the type `byte` it only gives the
declaration `typedef unsigned char byte;`, which is kept as the first entry of
`declarations`.
-/

namespace ArduCam

/-! ## Declarations of the header -/

/-- C++ types that are written in the header. -/
inductive CType where
  | void
  | char
  | unsignedChar
  | const (t : CType)
  | pointer (t : CType)
  | named (name : String)
  deriving DecidableEq, Repr

/-- One function parameter: its type and its name. -/
structure Param where
  type : CType
  name : String
  deriving DecidableEq, Repr

/-- Statements.  `prim` stands for any statement that may act on the program
state (its meaning is supplied by the interpretation given to `exec`); the
header itself only uses the null statement and a compound statement. -/
inductive Stmt (α : Type) where
  | null
  | prim (a : α)
  | ret
  | compound (body : List (Stmt α))

/-- Top-level declarations of the header. -/
inductive Decl where
  | typedef (type : CType) (name : String)
  | func (externC : Bool) (ret : CType) (name : String) (params : List Param)
      (body : Option (Stmt Empty))

/-- The body `{;}` of `__cxa_pure_virtual`: a compound statement holding one
null statement. -/
def cxaPureVirtualBody : Stmt Empty := Stmt.compound [Stmt.null]

/-- Lines 26 to 38 of the header, in source order. -/
def declarations : List Decl :=
  [ Decl.typedef CType.unsignedChar "byte",
    Decl.func true CType.void "__cxa_pure_virtual" [] (some cxaPureVirtualBody),
    Decl.func false CType.void "statusLedSDErrorFlash" [] none,
    Decl.func false CType.void "statusLedNetworkWarnFlash" [] none,
    Decl.func false CType.void "setNetworkDefaults" [] none,
    Decl.func false CType.void "readConfig" [] none,
    Decl.func false CType.void "initNetwork" [] none,
    Decl.func false CType.void "initServos" [] none,
    Decl.func false CType.void "sendHttpOkHeader" [] none,
    Decl.func false CType.void "respondWith404" [] none,
    Decl.func false CType.void "respondWithPage"
      [⟨CType.pointer (CType.const CType.char), "pagePath"⟩] none,
    Decl.func false CType.void "moveServos"
      [⟨CType.named "Coordinates", "direction"⟩] none ]

/-- The signature of a function declaration. -/
structure Signature where
  name : String
  ret : CType
  params : List CType
  deriving DecidableEq, Repr

/-- Functions that are given a body in the header: name and body. -/
def definedFunctions : List Decl → List (String × Stmt Empty)
  | [] => []
  | Decl.func _ _ name _ (some body) :: ds => (name, body) :: definedFunctions ds
  | _ :: ds => definedFunctions ds

/-- Return types of the functions that are given a body. -/
def definedReturnTypes : List Decl → List CType
  | [] => []
  | Decl.func _ ret _ _ (some _) :: ds => ret :: definedReturnTypes ds
  | _ :: ds => definedReturnTypes ds

/-- Functions that are declared without a body (prototypes). -/
def prototypes : List Decl → List Signature
  | [] => []
  | Decl.func _ ret name params none :: ds =>
      ⟨name, ret, params.map Param.type⟩ :: prototypes ds
  | _ :: ds => prototypes ds

/-- Type names the header itself declares, each with the type it stands for. -/
def declaredTypes : List Decl → List (String × CType)
  | [] => []
  | Decl.typedef type name :: ds => (name, type) :: declaredTypes ds
  | _ :: ds => declaredTypes ds

/-- Does the type mention the type name `n`? -/
def CType.mentions (n : String) : CType → Bool
  | CType.named m => m == n
  | CType.const t => t.mentions n
  | CType.pointer t => t.mentions n
  | _ => false

/-- A place of the header where a type is written. -/
inductive Site where
  | typedefTarget (aliasName : String)
  | returnType (function : String)
  | paramType (function : String) (index : Nat)
  | macroBody (macroName : String)
  deriving DecidableEq, Repr

/-- Positions (from `i` on) of the parameters whose type mentions `n`. -/
def paramSites (n function : String) : Nat → List Param → List Site
  | _, [] => []
  | i, p :: ps =>
      (if p.type.mentions n then [Site.paramType function i] else [])
        ++ paramSites n function (i + 1) ps

/-- Every place among the declarations where the type name `n` is written. -/
def declSites (n : String) : List Decl → List Site
  | [] => []
  | Decl.typedef type name :: ds =>
      (if type.mentions n then [Site.typedefTarget name] else []) ++ declSites n ds
  | Decl.func _ ret name params _ :: ds =>
      (if ret.mentions n then [Site.returnType name] else [])
        ++ paramSites n name 0 params ++ declSites n ds

/-! ## Statement semantics -/

/-- How the execution of a statement ends. -/
inductive Outcome (σ : Type) where
  | fallthrough (s : σ)
  | returned (s : σ)
  | abort

mutual
/-- Execute one statement from state `s`; `interp` gives the meaning of the
primitive statements (`none`: the statement does not complete). -/
def exec {α σ : Type} (interp : α → σ → Option σ) : Stmt α → σ → Outcome σ
  | Stmt.null, s => Outcome.fallthrough s
  | Stmt.prim a, s =>
      match interp a s with
      | some s' => Outcome.fallthrough s'
      | none => Outcome.abort
  | Stmt.ret, s => Outcome.returned s
  | Stmt.compound body, s => execList interp body s
/-- Execute a statement sequence from left to right. -/
def execList {α σ : Type} (interp : α → σ → Option σ) : List (Stmt α) → σ → Outcome σ
  | [], s => Outcome.fallthrough s
  | st :: rest, s =>
      match exec interp st s with
      | Outcome.fallthrough s' => execList interp rest s'
      | o => o
end

/-- Call a `void` function with the given body: the call returns normally
(`some`) with the final state when control reaches the end of the body or a
`return;`, and yields no value. -/
def callVoid {α σ : Type} (interp : α → σ → Option σ) (body : Stmt α) (s : σ) :
    Option (Unit × σ) :=
  match exec interp body s with
  | Outcome.fallthrough s' => some ((), s')
  | Outcome.returned s' => some ((), s')
  | Outcome.abort => none

/-! ## The `#define` lines and macro expansion -/

/-- Preprocessing tokens.  Identifiers (keywords included), the three
punctuators that matter for a macro invocation, and every other token by its
spelling. -/
inductive Tok where
  | ident (name : String)
  | lparen
  | rparen
  | comma
  | other (text : String)
  deriving DecidableEq, Repr

/-- One `#define`: `params = none` for an object-like definition, `some ps` for
a function-like one; `body` is the replacement list. -/
structure Macro where
  name : String
  params : Option (List String)
  body : List Tok
  deriving DecidableEq, Repr

/-- Lines 2 and 4 to 24 of the header, in source order. -/
def defines : List Macro :=
  [ ⟨"_VSARDUINO_H_", none, []⟩,
    ⟨"__AVR_ATmega328P__", none, []⟩,
    ⟨"ARDUINO", none, [Tok.other "103"]⟩,
    ⟨"__AVR__", none, []⟩,
    ⟨"F_CPU", none, [Tok.other "16000000L"]⟩,
    ⟨"__cplusplus", none, []⟩,
    ⟨"__attribute__", some ["x"], []⟩,
    ⟨"__inline__", none, []⟩,
    ⟨"__asm__", some ["x"], []⟩,
    ⟨"__extension__", none, []⟩,
    ⟨"__ATTR_PURE__", none, []⟩,
    ⟨"__ATTR_CONST__", none, []⟩,
    ⟨"__inline__", none, []⟩,
    ⟨"__asm__", none, []⟩,
    ⟨"__volatile__", none, []⟩,
    ⟨"__builtin_va_list", none, []⟩,
    ⟨"__builtin_va_start", none, []⟩,
    ⟨"__builtin_va_end", none, []⟩,
    ⟨"__DOXYGEN__", none, []⟩,
    ⟨"prog_void", none, []⟩,
    ⟨"PGM_VOID_P", none, [Tok.ident "int"]⟩,
    ⟨"NOINLINE", none,
      [Tok.ident "__attribute__", Tok.lparen, Tok.lparen, Tok.ident "noinline",
       Tok.rparen, Tok.rparen]⟩ ]

/-- The definition of `n` in force after the `#define` block: a later
`#define` of a name replaces an earlier one. -/
def lookupDefine (ms : List Macro) (n : String) : Option Macro :=
  ms.reverse.find? (fun m => m.name == n)

/-- Every macro whose replacement list holds the identifier `n`. -/
def defineSites (n : String) : List Macro → List Site
  | [] => []
  | m :: ms =>
      (if m.body.contains (Tok.ident n) then [Site.macroBody m.name] else [])
        ++ defineSites n ms

/-- A token together with its hide set: the macro names that must not be
expanded again at this token. -/
abbrev HTok := Tok × List String

/-- Add the names `hs` to the hide set of every token. -/
def hsadd (hs : List String) (ts : List HTok) : List HTok :=
  ts.map (fun t => (t.1, hs ++ t.2))

/-- Put `t` in front of the argument being collected. -/
def pushTok (t : HTok) (r : List HTok × List (List HTok) × List String × List HTok) :
    List HTok × List (List HTok) × List String × List HTok :=
  (t :: r.1, r.2.1, r.2.2.1, r.2.2.2)

/-- Open a new argument in front of the ones collected. -/
def pushArg (r : List HTok × List (List HTok) × List String × List HTok) :
    List HTok × List (List HTok) × List String × List HTok :=
  ([], r.1 :: r.2.1, r.2.2.1, r.2.2.2)

/-- Collect the arguments of an invocation, starting right after its opening
parenthesis, `depth` parentheses deep inside the argument: the first argument,
the further arguments, the hide set of the closing parenthesis and the tokens
after it.  Commas split arguments only outside nested parentheses; `none` when
the closing parenthesis is missing. -/
def collectArgs : Nat → List HTok →
    Option (List HTok × List (List HTok) × List String × List HTok)
  | _, [] => none
  | depth, (Tok.rparen, h) :: ts =>
      if depth = 0 then some ([], [], h, ts)
      else (collectArgs (depth - 1) ts).map (pushTok (Tok.rparen, h))
  | depth, (Tok.lparen, h) :: ts =>
      (collectArgs (depth + 1) ts).map (pushTok (Tok.lparen, h))
  | depth, (Tok.comma, h) :: ts =>
      if depth = 0 then (collectArgs 0 ts).map pushArg
      else (collectArgs depth ts).map (pushTok (Tok.comma, h))
  | depth, t :: ts => (collectArgs depth ts).map (pushTok t)

/-- The argument list of an invocation of a macro with parameters `ps`: `f()`
passes no argument to a macro without parameters and one empty argument
otherwise; `none` when the number of arguments does not fit. -/
def matchArgs (ps : List String) (first : List HTok) (more : List (List HTok)) :
    Option (List (List HTok)) :=
  if ps = [] ∧ first = [] ∧ more = [] then some []
  else if ps.length = (first :: more).length then some (first :: more)
  else none

/-- Substitute the arguments into a replacement list: a parameter is replaced
by its fully expanded argument (`expandArg`), every other token is kept. -/
def subst (expandArg : List HTok → Option (List HTok)) (ps : List String)
    (args : List (List HTok)) : List Tok → Option (List HTok)
  | [] => some []
  | Tok.ident n :: body =>
      if ps.contains n then
        match expandArg (args.getD (ps.indexOf n) []), subst expandArg ps args body with
        | some a, some r => some (a ++ r)
        | _, _ => none
      else (subst expandArg ps args body).map (fun r => (Tok.ident n, []) :: r)
  | t :: body => (subst expandArg ps args body).map (fun r => (t, []) :: r)

/-- Macro expansion with rescanning.  An identifier that names a macro and is
not hidden is replaced; the replacement, with the macro's name added to the
hide sets, is scanned again together with the rest of the input.  A
function-like macro is only invoked when an opening parenthesis follows.
`none`: out of fuel, or an ill-formed invocation. -/
def expand (ms : List Macro) : Nat → List HTok → Option (List HTok)
  | 0, _ => none
  | _ + 1, [] => some []
  | fuel + 1, (Tok.ident n, hs) :: ts =>
      if hs.contains n then (expand ms fuel ts).map (fun r => (Tok.ident n, hs) :: r)
      else
        match lookupDefine ms n with
        | none => (expand ms fuel ts).map (fun r => (Tok.ident n, hs) :: r)
        | some m =>
            match m.params with
            | none => expand ms fuel (hsadd (n :: hs) (m.body.map (fun t => (t, []))) ++ ts)
            | some ps =>
                match ts with
                | (Tok.lparen, _) :: ts' =>
                    match collectArgs 0 ts' with
                    | none => none
                    | some (first, more, hs', rest) =>
                        match matchArgs ps first more with
                        | none => none
                        | some args =>
                            match subst (expand ms fuel) ps args m.body with
                            | none => none
                            | some b =>
                                expand ms fuel
                                  (hsadd (n :: hs.filter (fun h => hs'.contains h)) b ++ rest)
                | _ => (expand ms fuel ts).map (fun r => (Tok.ident n, hs) :: r)
  | fuel + 1, t :: ts => (expand ms fuel ts).map (fun r => t :: r)

/-- Expand a token sequence of the source text under the header's `#define`
lines: source tokens start with empty hide sets, and the hide sets are dropped
from the result. -/
def preprocess (fuel : Nat) (ts : List Tok) : Option (List Tok) :=
  (expand defines fuel (ts.map (fun t => (t, [])))).map (fun r => r.map Prod.fst)

/-- A token sequence that is one macro argument when scanned `depth`
parentheses deep: parentheses are balanced and no comma stands outside nested
parentheses. -/
def isMacroArg : Nat → List Tok → Bool
  | depth, [] => depth == 0
  | depth, Tok.lparen :: ts => isMacroArg (depth + 1) ts
  | depth, Tok.rparen :: ts => depth != 0 && isMacroArg (depth - 1) ts
  | depth, Tok.comma :: ts => depth != 0 && isMacroArg depth ts
  | depth, _ :: ts => isMacroArg depth ts

/-! ## Helper lemmas -/

theorem expand_nil (ms : List Macro) (fuel : Nat) : expand ms (fuel + 1) [] = some [] := by
  simp [expand]

theorem strip_hide_sets (x : List Tok) :
    (x.map (fun t => ((t, []) : HTok))).map Prod.fst = x := by
  induction x with
  | nil => rfl
  | cons t ts ih => simpa using ih

/-- Scanning a well-formed argument `x` only moves its tokens into the argument
being collected. -/
theorem collectArgs_append (x y : List HTok) :
    ∀ depth : Nat, isMacroArg depth (x.map Prod.fst) = true →
      collectArgs depth (x ++ y)
        = (collectArgs 0 y).map (fun r => (x ++ r.1, r.2.1, r.2.2.1, r.2.2.2)) := by
  induction x with
  | nil =>
      intro depth h
      have hd : depth = 0 := by simpa [isMacroArg] using h
      subst hd
      simp only [List.nil_append]
      cases collectArgs 0 y <;> simp
  | cons t ts ih =>
      intro depth h
      obtain ⟨tok, hs⟩ := t
      cases tok with
      | ident n =>
          have h' : isMacroArg depth (ts.map Prod.fst) = true := by simpa [isMacroArg] using h
          simp only [List.cons_append, collectArgs, List.append_eq, ih depth h']
          cases collectArgs 0 y <;> simp [pushTok]
      | other n =>
          have h' : isMacroArg depth (ts.map Prod.fst) = true := by simpa [isMacroArg] using h
          simp only [List.cons_append, collectArgs, List.append_eq, ih depth h']
          cases collectArgs 0 y <;> simp [pushTok]
      | lparen =>
          have h' : isMacroArg (depth + 1) (ts.map Prod.fst) = true := by
            simpa [isMacroArg] using h
          simp only [List.cons_append, collectArgs, List.append_eq, ih (depth + 1) h']
          cases collectArgs 0 y <;> simp [pushTok]
      | rparen =>
          have h' : depth ≠ 0 ∧ isMacroArg (depth - 1) (ts.map Prod.fst) = true := by
            simpa [isMacroArg] using h
          simp only [List.cons_append, collectArgs, List.append_eq, if_neg h'.1, ih (depth - 1) h'.2]
          cases collectArgs 0 y <;> simp [pushTok]
      | comma =>
          have h' : depth ≠ 0 ∧ isMacroArg depth (ts.map Prod.fst) = true := by
            simpa [isMacroArg] using h
          simp only [List.cons_append, collectArgs, List.append_eq, if_neg h'.1, ih depth h'.2]
          cases collectArgs 0 y <;> simp [pushTok]

/-- An invocation `__attribute__ ( x )` with a well-formed argument is removed
from the token sequence in one expansion step. -/
theorem expand_attribute (x rest : List HTok) (hp : List String) (fuel : Nat)
    (hx : isMacroArg 0 (x.map Prod.fst) = true) :
    expand defines (fuel + 1)
        ((Tok.ident "__attribute__", []) :: (Tok.lparen, []) :: (x ++ (Tok.rparen, hp) :: rest))
      = expand defines fuel rest := by
  have hl : lookupDefine defines "__attribute__" = some ⟨"__attribute__", some ["x"], []⟩ := by
    decide
  have hc := collectArgs_append x ((Tok.rparen, hp) :: rest) 0 hx
  simp only [collectArgs, if_true] at hc
  simp [expand, hl, hc, matchArgs, subst, hsadd]

/-! ## The claims -/

/-- C1: the only function the header gives a body is `__cxa_pure_virtual`, a
`void` function whose body is the empty compound statement `{;}`; called in any
program state, it returns normally, yields no value and leaves the state as it
was. -/
theorem cxa_pure_virtual_has_no_effect :
    (definedFunctions declarations).map Prod.fst = ["__cxa_pure_virtual"] ∧
    (definedFunctions declarations).map Prod.snd = [cxaPureVirtualBody] ∧
    definedReturnTypes declarations = [CType.void] ∧
    ∀ (σ : Type) (interp : Empty → σ → Option σ) (s : σ),
      callVoid interp cxaPureVirtualBody s = some ((), s) := by
  refine ⟨rfl, rfl, rfl, ?_⟩
  intro σ interp s
  simp [callVoid, cxaPureVirtualBody, exec, execList]

/-- C2: the ten collaborator functions are declared without a body, in this
order; each returns `void`; the first eight take no parameter,
`respondWithPage` takes exactly one parameter of type `const char *` and
`moveServos` exactly one of type `Coordinates`. -/
theorem collaborators_are_forward_declared :
    (prototypes declarations).map Signature.name =
      ["statusLedSDErrorFlash", "statusLedNetworkWarnFlash", "setNetworkDefaults",
       "readConfig", "initNetwork", "initServos", "sendHttpOkHeader", "respondWith404",
       "respondWithPage", "moveServos"] ∧
    (∀ p ∈ prototypes declarations,
      p.name ∉ (definedFunctions declarations).map Prod.fst) ∧
    (∀ p ∈ prototypes declarations, p.ret = CType.void) ∧
    (∀ p ∈ (prototypes declarations).take 8, p.params = []) ∧
    (prototypes declarations).drop 8 =
      [⟨"respondWithPage", CType.void, [CType.pointer (CType.const CType.char)]⟩,
       ⟨"moveServos", CType.void, [CType.named "Coordinates"]⟩] := by
  refine ⟨rfl, ?_, ?_, ?_, rfl⟩ <;> decide

/-- C3, as amended: the type name `Coordinates` is written at exactly one place
of the header, the type of the first parameter of `moveServos`; the header
declares no type of that name; and the header declares exactly one type name,
`byte`, standing for `unsigned char`. -/
theorem coordinates_used_once_byte_declared :
    declSites "Coordinates" declarations ++ defineSites "Coordinates" defines
      = [Site.paramType "moveServos" 0] ∧
    "Coordinates" ∉ (declaredTypes declarations).map Prod.fst ∧
    declaredTypes declarations = [("byte", CType.unsignedChar)] := by
  refine ⟨?_, ?_, rfl⟩ <;> decide

/-- C3, as stated, fails: the header does declare a type other than
`Coordinates`, namely `byte` (line 26), so it is not true that every type the
header declares is `Coordinates`. -/
theorem byte_is_another_declared_type :
    ("byte", CType.unsignedChar) ∈ declaredTypes declarations ∧
    ¬ (∀ d ∈ declaredTypes declarations, d.1 = "Coordinates") := by
  decide

/-- C5: under the header's `#define` lines, `__attribute__ ( x )` expands to
the empty token sequence for every well-formed argument `x`, `NOINLINE` is
defined as `__attribute__((noinline))`, and `NOINLINE` therefore expands to
the empty token sequence; two resp. three units of fuel are enough. -/
theorem attribute_and_noinline_are_erased (x : List Tok) (hx : isMacroArg 0 x = true)
    (fuel : Nat) :
    preprocess (fuel + 2) (Tok.ident "__attribute__" :: Tok.lparen :: (x ++ [Tok.rparen]))
      = some [] ∧
    (lookupDefine defines "NOINLINE").map Macro.body
      = some [Tok.ident "__attribute__", Tok.lparen, Tok.lparen, Tok.ident "noinline",
              Tok.rparen, Tok.rparen] ∧
    preprocess (fuel + 3) [Tok.ident "NOINLINE"] = some [] := by
  refine ⟨?_, by decide, ?_⟩
  · have hx' : isMacroArg 0 ((x.map (fun t => ((t, []) : HTok))).map Prod.fst) = true := by
      rw [strip_hide_sets]; exact hx
    have h := expand_attribute (x.map (fun t => ((t, []) : HTok))) [] [] (fuel + 1) hx'
    simp only [preprocess, List.map_cons, List.map_append, List.map_nil]
    rw [h, expand_nil]
    rfl
  · have hl : lookupDefine defines "NOINLINE" = some ⟨"NOINLINE", none,
        [Tok.ident "__attribute__", Tok.lparen, Tok.lparen, Tok.ident "noinline",
         Tok.rparen, Tok.rparen]⟩ := by decide
    simp [preprocess, expand, hl, hsadd, collectArgs, matchArgs, subst, pushTok,
      show lookupDefine defines "__attribute__" = some ⟨"__attribute__", some ["x"], []⟩
        from by decide]

/-- C5 at the argument `(noinline)`, with the least fuel. -/
theorem attribute_and_noinline_are_erased_witness :
    isMacroArg 0 [Tok.lparen, Tok.ident "noinline", Tok.rparen] = true ∧
    (preprocess 2 (Tok.ident "__attribute__" :: Tok.lparen ::
        ([Tok.lparen, Tok.ident "noinline", Tok.rparen] ++ [Tok.rparen])) = some [] ∧
     (lookupDefine defines "NOINLINE").map Macro.body
      = some [Tok.ident "__attribute__", Tok.lparen, Tok.lparen, Tok.ident "noinline",
              Tok.rparen, Tok.rparen] ∧
     preprocess 3 [Tok.ident "NOINLINE"] = some []) :=
  ⟨by decide,
   attribute_and_noinline_are_erased [Tok.lparen, Tok.ident "noinline", Tok.rparen]
     (by decide) 0⟩

end ArduCam
